import Mathlib

/-!
Verification development for the vaults-wrapper distributor engine.

The engine is embedded shallowly: every chain read, log scan, blob download
and Merkle-library call that the TypeScript `Distributor` class performs is a
field of an explicit environment record `Env`, and `generateDistribution` is
a pure function of that environment.  Monetary values are arbitrary-precision
integers in the source (JS `bigint`), so they are `Nat` here, with explicit
`Int` subtraction where the source subtracts before clamping.  The
OpenZeppelin `StandardMerkleTree` library is an external collaborator of the
engine; its root, node dump, tree-index assignment and proof extraction are
therefore environment parameters applied to the list of claims the tree is
built from.  Unparseable event logs are `Except.error` entries in the log
lists.  The `operatorFee` percentage is a JS float in the source; only
`Math.floor(operatorFee * 100)` ever reaches the integer arithmetic, and that
basis-point value is the field `operatorFeeBps`.  Nat division is total in
Lean while JS `bigint` division by zero throws; theorems that depend on the
division therefore carry the hypothesis `0 < totalSupply` under which the two
semantics agree.
-/

/-- Lowercase of a string, character by character; models
`String.prototype.toLowerCase` on hex address strings. -/
def strLower (s : String) : String := String.mk (s.data.map Char.toLower)

/-- The `ethers.ZeroHash` constant. -/
def zeroHash : String :=
  "0x0000000000000000000000000000000000000000000000000000000000000000"

/-- The `ethers.ZeroAddress` constant. -/
def zeroAddress : String := "0x0000000000000000000000000000000000000000"

/-- A claim triple `(recipient, token, cumulative amount)` as in `types/index.ts`. -/
structure Claim where
  recipient : String
  token : String
  amount : Nat
deriving DecidableEq

/-- One entry of `Distribution.values`: `{ treeIndex, value: [recipient, token, amount] }`,
with the triple flattened into fields. -/
structure ValueRow where
  treeIndex : Nat
  recipient : String
  token : String
  amount : Nat
deriving DecidableEq

/-- The distribution blob of `types/index.ts`.  The constant `format` and
`leafEncoding` literals carry no information and are omitted;
`totalDistributed` is the JS object as an association list. -/
structure Distribution where
  tree : List String
  values : List ValueRow
  prevTreeCid : String
  blockNumber : Nat
  totalDistributed : List (String × Nat)
deriving DecidableEq

/-- The claim a value row denotes. -/
def toClaim (r : ValueRow) : Claim := ⟨r.recipient, r.token, r.amount⟩

/-- The claims of a distribution blob, as rebuilt by
`validatePreviousDistribution` from `previousDistribution.values`. -/
def claimsOfDist (d : Distribution) : List Claim := d.values.map toClaim

/-- Lookup in a `totalDistributed` object: `obj[token] || '0'`. -/
def lookupTotal (td : List (String × Nat)) (t : String) : Nat :=
  match td.find? (fun p => p.1 == t) with
  | some p => p.2
  | none => 0

/-- The `previousClaims` nested map of `generateDistribution`: among the rows
of the previous blob matching `(user, token)` exactly (no lowercasing in the
source), the last one wins because `Map.set` overwrites. -/
def prevAmountOf (prev : Option Distribution) (u t : String) : Nat :=
  match prev with
  | none => 0
  | some pd =>
    match (pd.values.filter (fun r => r.recipient == u && r.token == t)).getLast? with
    | some r => r.amount
    | none => 0

/-- The accumulation loop of `getClaimedAmountSinceLastReport`: parseable
`Claimed` log amounts are summed, unparseable logs are skipped with a warning. -/
def sumClaimed (logs : List (Except String Nat)) : Nat :=
  logs.foldl (fun acc l => match l with | .ok a => acc + a | .error _ => acc) 0

/-- The parse loop of `getWrapperUsers`: the `owner` argument of each
parseable `Deposit` log, in log order; unparseable logs are skipped. -/
def okOwners (logs : List (Except String String)) : List String :=
  logs.filterMap (fun l => match l with | .ok a => some a | .error _ => none)

/-- One `Set.add` step of a JS `Set` of strings, which keeps insertion order. -/
def insertOnce (l : List String) (a : String) : List String :=
  if a ∈ l then l else l ++ [a]

/-- `Array.from(new Set(l))`: deduplication keeping first occurrences. -/
def setOfList (l : List String) : List String := l.foldl insertOnce []

/-- The environment of one `generateDistribution` run: every external read the
method performs, pinned to the moment it is read. -/
structure Env where
  /-- Joint result of `distributorContract.cid()` and `.root()`; an `error`
  models an RPC failure of either read. -/
  cidRoot : Except String (String × String)
  /-- `ipfsService.downloadDistribution`. -/
  download : String → Except String Distribution
  /-- `distributorContract.lastProcessedBlock()`. -/
  lastProcessedBlock : Nat
  /-- `provider.getBlockNumber()`. -/
  currentBlock : Nat
  /-- `getLogs` for `Deposit` events over an inclusive block range, each log
  already taken through `iface.parseLog` to its `owner` argument. -/
  depositLogs : Nat → Nat → List (Except String String)
  /-- `wrapperContract.totalSupply()`. -/
  totalSupply : Nat
  /-- `wrapperContract.balanceOf` at current height. -/
  balanceOf : String → Nat
  /-- `distributorContract.getTokens()`. -/
  tokens : List String
  /-- `erc20.balanceOf(distributor)` at current height, per token. -/
  distributorBalance : String → Nat
  /-- `erc20.balanceOf(distributor, blockTag)` per token and block. -/
  distributorBalanceAt : String → Nat → Nat
  /-- `getLogs` for `Claimed` events of one token from a block to `latest`,
  each log parsed to its `amount` argument. -/
  claimedLogs : String → Nat → List (Except String Nat)
  /-- `Math.floor(options.operatorFee * 100)`, the basis-point fee. -/
  operatorFeeBps : Nat
  /-- `StandardMerkleTree.of(claims).root`. -/
  mroot : List Claim → String
  /-- The `tree` node array of `StandardMerkleTree.of(claims).dump()`. -/
  treeNodes : List Claim → List String
  /-- The `treeIndex` the dump assigns to the value at each input position. -/
  tixOf : List Claim → Nat → Nat
  /-- `ipfsService.uploadDistribution`, returning the CID. -/
  upload : Distribution → String

/-- `Distributor.getPreviousDistributionInfo`: `null` when the reads fail
(the error is caught and logged), when the cid is empty, or when the root is
the zero hash. -/
def getPreviousDistributionInfo (env : Env) : Option (String × String) :=
  match env.cidRoot with
  | .error _ => none
  | .ok (cid, merkleRoot) =>
    if cid = "" ∨ merkleRoot = zeroHash then none else some (cid, merkleRoot)

/-- `Distributor.getWrapperUsers`: deduplicated parseable `Deposit` owners over
`[lastProcessedBlock, currentBlock]`, with the zero address filtered out. -/
def getWrapperUsers (env : Env) : List String :=
  (setOfList (okOwners (env.depositLogs env.lastProcessedBlock env.currentBlock))).filter
    (fun a => a != zeroAddress)

/-- `Distributor.getClaimedAmountSinceLastReport` (`toBlock` is `latest`). -/
def getClaimedAmountSinceLastReport (env : Env) (tokenAddr : String) (fromBlock : Nat) : Nat :=
  sumClaimed (env.claimedLogs tokenAddr fromBlock)

/-- `Distributor.calculateDistributableAmount`. -/
def calculateDistributableAmount (env : Env) (tokenAddr : String)
    (prev : Option Distribution) : Nat :=
  let currentBalance := env.distributorBalance tokenAddr
  match prev with
  | none => currentBalance
  | some pd =>
    let claimedAmount := getClaimedAmountSinceLastReport env tokenAddr (pd.blockNumber + 1)
    let previousBalance := env.distributorBalanceAt tokenAddr pd.blockNumber
    let newDistributableAmount : Int :=
      (currentBalance : Int) - ((previousBalance : Int) - (claimedAmount : Int))
    if 0 < newDistributableAmount then newDistributableAmount.toNat else 0

/-- `Distributor.generateMerkleTree` rejects an empty claim list; otherwise
the tree is determined by the claims, on which the library fields of `Env`
operate. -/
def generateMerkleTree (claims : List Claim) : Except String Unit :=
  if claims.isEmpty then .error "No claims to process" else .ok ()

/-- `Distributor.validatePreviousDistribution`: rebuild the tree from the
blob values and compare its root with the expected one; any error inside is
caught and reported as `false`. -/
def validatePreviousDistribution (env : Env) (pd : Distribution)
    (expectedMerkleRoot : String) : Bool :=
  match generateMerkleTree (claimsOfDist pd) with
  | .error _ => false
  | .ok _ => env.mroot (claimsOfDist pd) == expectedMerkleRoot

/-- The recipients of the previous blob values, in blob order (`value[0]`). -/
def prevRecipients (prev : Option Distribution) : List String :=
  match prev with
  | some pd => pd.values.map (fun v => v.recipient)
  | none => []

/-- The `allUsersSet` construction of `generateDistribution`: previous
recipients inserted first, then the new wrapper users. -/
def candidateUsers (env : Env) (prev : Option Distribution) : List String :=
  setOfList (prevRecipients prev ++ getWrapperUsers env)

/-- `BigInt(1e18)`, exact since `1e18` is exactly representable as a float. -/
def precision : Nat := 1000000000000000000

/-- One iteration of the per-user allocation loop of `generateDistribution`:
the accumulator carries `(allClaims for this token, tokenTotalAmount)`. -/
def allocStep (env : Env) (prev : Option Distribution) (tokenAddr : String)
    (actualDistributableAmount : Nat) (acc : List Claim × Nat) (user : String) :
    List Claim × Nat :=
  let effectiveBalance := env.balanceOf user
  if effectiveBalance = 0 then acc
  else
    let userShare := effectiveBalance * precision / env.totalSupply
    let tokenAmount := actualDistributableAmount * userShare / precision
    if 0 < tokenAmount then
      let previousAmount := prevAmountOf prev user tokenAddr
      (acc.1 ++ [{ recipient := user, token := tokenAddr,
                   amount := previousAmount + tokenAmount }],
        acc.2 + tokenAmount)
    else acc

/-- The body of the per-token loop of `generateDistribution`: returns the
claim rows emitted for this token and its `totalDistributed` entry. -/
def processToken (env : Env) (prev : Option Distribution) (users : List String)
    (tokenAddr : String) : List Claim × Nat :=
  let tokenTotalAmount := match prev with
    | some pd => lookupTotal pd.totalDistributed tokenAddr
    | none => 0
  let distributableAmount := calculateDistributableAmount env tokenAddr prev
  if distributableAmount = 0 then ([], tokenTotalAmount)
  else
    let operatorFeeAmount := distributableAmount * env.operatorFeeBps / 10000
    let actualDistributableAmount := distributableAmount - operatorFeeAmount
    users.foldl (allocStep env prev tokenAddr actualDistributableAmount)
      ([], tokenTotalAmount)

/-- The `allClaims` list after the token loop, before sorting. -/
def roundClaims (env : Env) (prev : Option Distribution) : List Claim :=
  let users := candidateUsers env prev
  (env.tokens.map (fun t => (processToken env prev users t).1)).flatten

/-- The `totalDistributed` object after the token loop. -/
def totalDistributedOf (env : Env) (prev : Option Distribution) : List (String × Nat) :=
  let users := candidateUsers env prev
  env.tokens.map (fun t => (t, (processToken env prev users t).2))

/-- Model of `String.prototype.localeCompare` on hex address strings: the
primary collation strength compares the strings ignoring case (on the hex
alphabet this is code-point order of the lowercase forms); strings equal
ignoring case are tie-broken by code-point order as a stand-in for the
locale case tiebreak. -/
def localeCompare (a b : String) : Ordering :=
  (compare (strLower a) (strLower b)).then (compare a b)

/-- The sort comparator of `generateDistribution`: recipient first, token as
tiebreak. -/
def claimCmp (a b : Claim) : Ordering :=
  (localeCompare a.recipient b.recipient).then (localeCompare a.token b.token)

/-- The comparator as a non-strict Boolean relation. -/
def claimLE (a b : Claim) : Bool :=
  match claimCmp a b with
  | .gt => false
  | _ => true

/-- The comparator relation in `Prop` form. -/
def claimLEP (a b : Claim) : Prop := claimLE a b = true

instance : DecidableRel claimLEP := fun a b => by
  unfold claimLEP; infer_instance

/-- `allClaims.sort(comparator)`; JS `Array.prototype.sort` is an unspecified
comparison sort, modelled by insertion sort on the comparator relation. -/
def sortClaims (l : List Claim) : List Claim := l.insertionSort claimLEP

/-- The `values` entry of the dump: the claims in input order, each decorated
with the treeIndex the library assigns to its position. -/
def dumpValues (tix : Nat → Nat) : Nat → List Claim → List ValueRow
  | _, [] => []
  | i, c :: cs => ⟨tix i, c.recipient, c.token, c.amount⟩ :: dumpValues tix (i + 1) cs

/-- Lines 49-66 of `generateDistribution`: resolve the previous distribution
info, download the blob, validate it, and rethrow any failure; returns the
previous cid (empty at genesis) and the validated previous blob. -/
def loadPrevious (env : Env) : Except String (String × Option Distribution) :=
  match getPreviousDistributionInfo env with
  | none => .ok ("", none)
  | some (cid, merkleRoot) =>
    match env.download cid with
    | .error e => .error e
    | .ok pd =>
      if validatePreviousDistribution env pd merkleRoot then .ok (cid, some pd)
      else .error "Previous distribution validation failed"

/-- The rest of `generateDistribution` after the previous blob is resolved:
token loop, sort, tree build, blob assembly, upload. -/
def generateWithPrev (env : Env) (prevCid : String) (prev : Option Distribution) :
    Except String (Distribution × String × String) :=
  let sorted := sortClaims (roundClaims env prev)
  match generateMerkleTree sorted with
  | .error e => .error e
  | .ok _ =>
    let dist : Distribution := {
      tree := env.treeNodes sorted
      values := dumpValues (env.tixOf sorted) 0 sorted
      prevTreeCid := prevCid
      blockNumber := env.currentBlock
      totalDistributed := totalDistributedOf env prev }
    .ok (dist, env.mroot sorted, env.upload dist)

/-- `Distributor.generateDistribution`, returning
`(distribution, merkleRoot, cid)`. -/
def generateDistribution (env : Env) : Except String (Distribution × String × String) :=
  match loadPrevious env with
  | .error e => .error e
  | .ok (prevCid, prev) => generateWithPrev env prevCid prev

/-- The record returned by the proof lookup methods of `ProofGenerator`. -/
structure ProofResult where
  proof : List String
  value : String × String × Nat
  treeIndex : Nat
deriving DecidableEq

/-- `distribution.values[i]` followed by `value?.value || []`. -/
def rowValueAt (d : Distribution) (i : Nat) : String × String × Nat :=
  match d.values[i]? with
  | some row => (row.recipient, row.token, row.amount)
  | none => ("", "", 0)

/-- `Number(value?.treeIndex) || 0`. -/
def rowTreeIndexAt (d : Distribution) (i : Nat) : Nat :=
  match d.values[i]? with
  | some row => row.treeIndex
  | none => 0

/-- `ProofGenerator.generateProofForRecipient`: `findIndex` on a
case-insensitive recipient match; `getProof` is the loaded tree proof
extraction of the Merkle library, indexed by value position. -/
def generateProofForRecipient (getProof : Nat → List String) (d : Distribution)
    (recipient : String) : Option ProofResult :=
  match d.values.findIdx? (fun row => strLower row.recipient == strLower recipient) with
  | none => none
  | some i => some ⟨getProof i, rowValueAt d i, i⟩

/-- `ProofGenerator.generateProofByIndex`. -/
def generateProofByIndex (getProof : Nat → List String) (d : Distribution)
    (index : Int) : Option ProofResult :=
  if index < 0 ∨ (d.values.length : Int) ≤ index then none
  else some ⟨getProof index.toNat, rowValueAt d index.toNat, rowTreeIndexAt d index.toNat⟩

/-- `ProofGenerator.verifyProof`: builds a fresh single-leaf tree of the value
with the Merkle library (`treeOfValues`) and verifies the proof against that
tree (`treeVerify`); the `root` parameter is taken but never read. -/
def verifyProof {T : Type} (treeOfValues : List (String × String × Nat) → T)
    (treeVerify : T → (String × String × Nat) → List String → Bool)
    (value : String × String × Nat) (proof : List String) (root : String) : Bool :=
  treeVerify (treeOfValues [value]) value proof

/-- A previous-round blob with one row: recipient `0xu1` holds a cumulative 5
of token `0xt1`. -/
def pdPrev : Distribution :=
  { tree := []
    values := [⟨0, "0xu1", "0xt1", 5⟩]
    prevTreeCid := ""
    blockNumber := 10
    totalDistributed := [("0xt1", 5)] }

/-- A second-round environment: the previous blob `pdPrev` validates against
the on-chain root, token `0xt1` has zero new inflow, token `0xt2` has 10 new
units, recipient `0xu1` has emptied their wrapper balance and `0xv1` holds
the whole supply. -/
def envRound2 : Env :=
  { cidRoot := .ok ("QmP", "root1")
    download := fun c => if c = "QmP" then .ok pdPrev else .error "not found"
    lastProcessedBlock := 10
    currentBlock := 20
    depositLogs := fun _ _ => [.ok "0xv1"]
    totalSupply := 100
    balanceOf := fun u => if u = "0xv1" then 100 else 0
    tokens := ["0xt1", "0xt2"]
    distributorBalance := fun t => if t = "0xt1" then 7 else if t = "0xt2" then 10 else 0
    distributorBalanceAt := fun t _ => if t = "0xt1" then 7 else 0
    claimedLogs := fun _ _ => []
    operatorFeeBps := 0
    mroot := fun cl => if cl = [⟨"0xu1", "0xt1", 5⟩] then "root1" else "rootX"
    treeNodes := fun _ => []
    tixOf := fun _ i => i
    upload := fun _ => "cidX" }

/-- The blob `generateDistribution` produces on `envRound2`. -/
def blobRound2 : Distribution :=
  { tree := []
    values := [⟨0, "0xv1", "0xt2", 10⟩]
    prevTreeCid := "QmP"
    blockNumber := 20
    totalDistributed := [("0xt1", 5), ("0xt2", 10)] }


/-- An environment whose on-chain state has a non-empty cid next to the zero
root: the previous blob is downloadable and its rebuilt root differs from the
stored root, yet the engine treats the round as genesis. -/
def envZeroRoot : Env :=
  { cidRoot := .ok ("QmZ", zeroHash)
    download := fun c => if c = "QmZ" then .ok pdPrev else .error "not found"
    lastProcessedBlock := 0
    currentBlock := 3
    depositLogs := fun _ _ => [.ok "0xv1"]
    totalSupply := 5
    balanceOf := fun u => if u = "0xv1" then 5 else 0
    tokens := ["0xt1"]
    distributorBalance := fun _ => 4
    distributorBalanceAt := fun _ _ => 0
    claimedLogs := fun _ _ => []
    operatorFeeBps := 0
    mroot := fun _ => "rootX"
    treeNodes := fun _ => []
    tixOf := fun _ i => i
    upload := fun _ => "cidZ" }

/-- The blob `generateDistribution` produces on `envZeroRoot` (and on
`envRpcFail`, which differs only in the failing root/cid read). -/
def blobZeroRoot : Distribution :=
  { tree := []
    values := [⟨0, "0xv1", "0xt1", 4⟩]
    prevTreeCid := ""
    blockNumber := 3
    totalDistributed := [("0xt1", 4)] }

/-- An environment where reading the on-chain root and cid fails. -/
def envRpcFail : Env :=
  { envZeroRoot with cidRoot := .error "connection refused" }

/-- A previous blob whose recipients are not in address order and include the
zero address. -/
def pdOrder : Distribution :=
  { tree := []
    values := [⟨0, "0xb1", "0xt1", 1⟩, ⟨1, zeroAddress, "0xt1", 2⟩, ⟨2, "0xa1", "0xt1", 3⟩]
    prevTreeCid := ""
    blockNumber := 1
    totalDistributed := [("0xt1", 6)] }

/-- An environment delivering `pdOrder` as the previous blob, with no new
deposits. -/
def envOrder : Env :=
  { cidRoot := .ok ("QmO", "rootO")
    download := fun _ => .ok pdOrder
    lastProcessedBlock := 0
    currentBlock := 2
    depositLogs := fun _ _ => []
    totalSupply := 1
    balanceOf := fun _ => 0
    tokens := []
    distributorBalance := fun _ => 0
    distributorBalanceAt := fun _ _ => 0
    claimedLogs := fun _ _ => []
    operatorFeeBps := 0
    mroot := fun _ => "rootO"
    treeNodes := fun _ => []
    tixOf := fun _ i => i
    upload := fun _ => "cidO" }

/-- A one-row distribution blob for exercising the proof lookup functions. -/
def dNine : Distribution :=
  { tree := []
    values := [⟨7, "0xA1", "0xt1", 5⟩]
    prevTreeCid := ""
    blockNumber := 1
    totalDistributed := [("0xt1", 5)] }


/-- Lawfulness of an `Ordering`-valued comparator: antisymmetric under
argument swap, transitive on strict outcomes, and with `eq` outcomes acting
as congruences. -/
structure LawfulCmp {α : Type} (cmp : α → α → Ordering) : Prop where
  symm : ∀ a b, cmp a b = (cmp b a).swap
  lt_trans : ∀ {a b c}, cmp a b = .lt → cmp b c = .lt → cmp a c = .lt
  eq_left : ∀ {a b c}, cmp a b = .eq → cmp a c = cmp b c

theorem LawfulCmp.eq_right {α : Type} {cmp : α → α → Ordering} (h : LawfulCmp cmp)
    {a b c : α} (hbc : cmp b c = .eq) : cmp a b = cmp a c := by
  have hcb : cmp c b = .eq := by
    have := h.symm b c
    rw [hbc] at this
    cases hswap : cmp c b <;> rw [hswap] at this <;> simp [Ordering.swap] at this <;> rfl
  have h1 := h.symm a b
  have h2 := h.symm a c
  rw [h1, h2, h.eq_left hcb]

theorem lawfulCmp_compare {α : Type} [LinearOrder α] :
    LawfulCmp (fun a b : α => compare a b) where
  symm a b := by
    rcases lt_trichotomy a b with h | h | h
    · rw [compare_lt_iff_lt.mpr h, compare_gt_iff_gt.mpr h]; rfl
    · rw [h, compare_eq_iff_eq.mpr rfl]; rfl
    · rw [compare_gt_iff_gt.mpr h, compare_lt_iff_lt.mpr h]; rfl
  lt_trans h1 h2 :=
    compare_lt_iff_lt.mpr (lt_trans (compare_lt_iff_lt.mp h1) (compare_lt_iff_lt.mp h2))
  eq_left h := by rw [compare_eq_iff_eq.mp h]

theorem lawfulCmp_lex {α : Type} {cmp1 cmp2 : α → α → Ordering}
    (h1 : LawfulCmp cmp1) (h2 : LawfulCmp cmp2) :
    LawfulCmp (fun a b => (cmp1 a b).then (cmp2 a b)) where
  symm a b := by
    rw [h1.symm a b, h2.symm a b]
    cases cmp1 b a <;> cases cmp2 b a <;> rfl
  lt_trans {a b c} hab hbc := by
    rcases e1 : cmp1 a b with _ | _ | _ <;> rw [e1] at hab <;>
      rcases e2 : cmp1 b c with _ | _ | _ <;> rw [e2] at hbc <;>
        simp only [Ordering.then] at hab hbc ⊢
    · rw [h1.lt_trans e1 e2]
    · rw [← h1.eq_right e2, e1]
    · exact absurd hbc (by simp)
    · rw [h1.eq_left e1, e2]
    · rw [h1.eq_left e1, e2]
      simp only [Ordering.then]
      exact h2.lt_trans hab hbc
    · exact absurd hbc (by simp)
    · exact absurd hab (by simp)
    · exact absurd hab (by simp)
    · exact absurd hab (by simp)
  eq_left {a b c} hab := by
    have e1 : cmp1 a b = .eq := by
      rcases e : cmp1 a b with _ | _ | _ <;> rw [e] at hab <;>
        simp only [Ordering.then] at hab <;> first | rfl | exact absurd hab (by simp)
    have e2 : cmp2 a b = .eq := by
      rw [e1] at hab
      simpa only [Ordering.then] using hab
    rw [h1.eq_left e1, h2.eq_left e2]

theorem lawfulCmp_comap {α β : Type} {cmp : α → α → Ordering} (f : β → α)
    (h : LawfulCmp cmp) : LawfulCmp (fun x y => cmp (f x) (f y)) where
  symm a b := h.symm (f a) (f b)
  lt_trans hab hbc := h.lt_trans hab hbc
  eq_left hab := h.eq_left hab

theorem lawful_localeCompare : LawfulCmp localeCompare :=
  lawfulCmp_lex (lawfulCmp_comap strLower lawfulCmp_compare) lawfulCmp_compare

theorem lawful_claimCmp : LawfulCmp claimCmp :=
  lawfulCmp_lex
    (lawfulCmp_comap Claim.recipient lawful_localeCompare)
    (lawfulCmp_comap Claim.token lawful_localeCompare)

theorem claimLE_iff (a b : Claim) : claimLE a b = true ↔ claimCmp a b ≠ .gt := by
  rcases e : claimCmp a b with _ | _ | _ <;> simp [claimLE, e]

instance : IsTrans Claim claimLEP where
  trans a b c hab hbc := by
    unfold claimLEP at *
    rw [claimLE_iff] at *
    intro hac
    rcases e1 : claimCmp a b with _ | _ | _ <;>
      rcases e2 : claimCmp b c with _ | _ | _ <;>
        first
          | exact hab e1
          | exact hbc e2
          | exact absurd (lawful_claimCmp.lt_trans e1 e2) (by rw [hac]; simp)
          | exact absurd (by rw [lawful_claimCmp.eq_right e2] at e1; exact e1 :
              claimCmp a c = .lt) (by rw [hac]; simp)
          | exact absurd (by rw [lawful_claimCmp.eq_left e1]; exact e2 :
              claimCmp a c = .lt) (by rw [hac]; simp)
          | exact absurd (by rw [lawful_claimCmp.eq_left e1]; exact e2 :
              claimCmp a c = .eq) (by rw [hac]; simp)

instance : IsTotal Claim claimLEP where
  total a b := by
    unfold claimLEP
    rw [claimLE_iff, claimLE_iff]
    rcases e : claimCmp a b with _ | _ | _
    · left; simp [e]
    · left; simp [e]
    · right
      have := lawful_claimCmp.symm a b
      rw [e] at this
      rcases e2 : claimCmp b a with _ | _ | _ <;> rw [e2] at this <;>
        simp [Ordering.swap] at this <;> simp [e2]

theorem sortClaims_sorted (l : List Claim) : (sortClaims l).Pairwise claimLEP :=
  List.sorted_insertionSort claimLEP l

theorem sortClaims_perm (l : List Claim) : (sortClaims l).Perm l :=
  List.perm_insertionSort claimLEP l

/-- The order the specification asserts for the blob rows: lowercase
recipient strictly first, lowercase token as non-strict tiebreak. -/
def claimKeyLE (a b : Claim) : Prop :=
  strLower a.recipient < strLower b.recipient ∨
    (strLower a.recipient = strLower b.recipient ∧ strLower a.token ≤ strLower b.token)

/-- The specification order on blob rows. -/
def rowLE (x y : ValueRow) : Prop := claimKeyLE (toClaim x) (toClaim y)

/-- A list of address strings is consistently cased when two entries with the
same lowercase form are the same string. -/
def LowerInj (l : List String) : Prop :=
  ∀ a ∈ l, ∀ b ∈ l, strLower a = strLower b → a = b

theorem key_of_claimLE {a b : Claim}
    (hr : strLower a.recipient = strLower b.recipient → a.recipient = b.recipient)
    (h : claimLEP a b) : claimKeyLE a b := by
  unfold claimLEP at h
  rw [claimLE_iff] at h
  unfold claimCmp localeCompare at h
  rcases c1 : compare (strLower a.recipient) (strLower b.recipient) with _ | _ | _
  · exact Or.inl (compare_lt_iff_lt.mp c1)
  · have hre : a.recipient = b.recipient := hr (compare_eq_iff_eq.mp c1)
    have c2 : compare a.recipient b.recipient = .eq := compare_eq_iff_eq.mpr hre
    rw [c1, c2] at h
    simp only [Ordering.then] at h
    rcases c3 : compare (strLower a.token) (strLower b.token) with _ | _ | _
    · exact Or.inr ⟨compare_eq_iff_eq.mp c1, le_of_lt (compare_lt_iff_lt.mp c3)⟩
    · exact Or.inr ⟨compare_eq_iff_eq.mp c1, le_of_eq (compare_eq_iff_eq.mp c3)⟩
    · rw [c3] at h
      simp [Ordering.then] at h
  · rw [c1] at h
    simp [Ordering.then] at h

theorem dumpValues_map_toClaim (tix : Nat → Nat) :
    ∀ (i : Nat) (l : List Claim), (dumpValues tix i l).map toClaim = l := by
  intro i l
  induction l generalizing i with
  | nil => rfl
  | cons c cs ih => simp [dumpValues, toClaim, ih]

theorem pairwise_dumpValues {l : List Claim} (h : l.Pairwise claimKeyLE)
    (tix : Nat → Nat) (i : Nat) : (dumpValues tix i l).Pairwise rowLE := by
  have hmap : ((dumpValues tix i l).map toClaim).Pairwise claimKeyLE := by
    rw [dumpValues_map_toClaim]; exact h
  have := (List.pairwise_map (R := claimKeyLE) (f := toClaim)
    (l := dumpValues tix i l)).mp hmap
  exact this

theorem sortClaims_pairwise_key (l : List Claim)
    (hrec : LowerInj (l.map Claim.recipient)) :
    (sortClaims l).Pairwise claimKeyLE := by
  apply (sortClaims_sorted l).imp_of_mem
  intro a b ha hb hab
  have ha' : a ∈ l := (sortClaims_perm l).mem_iff.mp ha
  have hb' : b ∈ l := (sortClaims_perm l).mem_iff.mp hb
  refine key_of_claimLE ?_ hab
  exact fun hlow => hrec _ (List.mem_map_of_mem Claim.recipient ha') _
    (List.mem_map_of_mem Claim.recipient hb') hlow

instance (l : List String) : Decidable (LowerInj l) := by
  unfold LowerInj
  infer_instance

theorem generateWithPrev_values {env : Env} {prevCid : String}
    {prev : Option Distribution} {d : Distribution} {mr mcid : String}
    (h : generateWithPrev env prevCid prev = .ok (d, mr, mcid)) :
    d.values = dumpValues (env.tixOf (sortClaims (roundClaims env prev))) 0
      (sortClaims (roundClaims env prev)) := by
  simp only [generateWithPrev] at h
  rcases hE : generateMerkleTree (sortClaims (roundClaims env prev)) with e | u
  · rw [hE] at h
    exact absurd h (by simp)
  · rw [hE] at h
    rw [Except.ok.injEq, Prod.mk.injEq] at h
    rw [← h.1]

/-- C4: in every blob produced by `generateDistribution`, the `values`
sequence is sorted by the pair `(recipient, token)` compared lexicographically
on the lowercase hex form of the addresses.  The hypothesis `hrec` states
that the recipient strings entering the round are consistently cased, as the
checksummed strings returned by the RPC layer are; without it the locale
tiebreak between recipient strings equal-ignoring-case is unspecified. -/
theorem generateDistribution_values_sorted (env : Env) (prevCid : String)
    (prev : Option Distribution)
    (h0 : loadPrevious env = .ok (prevCid, prev))
    (hrec : LowerInj ((roundClaims env prev).map Claim.recipient))
    (d : Distribution) (mr mcid : String)
    (h : generateDistribution env = .ok (d, mr, mcid)) :
    d.values.Pairwise rowLE := by
  have hgen : generateWithPrev env prevCid prev = .ok (d, mr, mcid) := by
    unfold generateDistribution at h
    rw [h0] at h
    exact h
  rw [generateWithPrev_values hgen]
  exact pairwise_dumpValues (sortClaims_pairwise_key _ hrec) _ 0

/-- Witness for C4: the hypotheses hold and the conclusion evaluates on the
concrete second-round environment. -/
theorem generateDistribution_values_sorted_witness :
    loadPrevious envRound2 = .ok ("QmP", some pdPrev) ∧
    LowerInj ((roundClaims envRound2 (some pdPrev)).map Claim.recipient) ∧
    blobRound2.values.Pairwise rowLE :=
  ⟨rfl, by decide, generateDistribution_values_sorted envRound2 "QmP" (some pdPrev) rfl
    (by decide) blobRound2 "rootX" "cidX" rfl⟩

/-- C2: for every token, `calculateDistributableAmount` returns the current
distributor balance at genesis; otherwise it returns current balance minus
(balance at the previous blob block minus the sum of parseable Claimed
amounts from `prev.blockNumber + 1` to latest), clamped to zero when that
difference is not positive. -/
theorem calculateDistributableAmount_spec (env : Env) (tokenAddr : String) :
    calculateDistributableAmount env tokenAddr none = env.distributorBalance tokenAddr ∧
    ∀ pd : Distribution,
      calculateDistributableAmount env tokenAddr (some pd) =
        ((env.distributorBalance tokenAddr : Int) -
          ((env.distributorBalanceAt tokenAddr pd.blockNumber : Int) -
            (sumClaimed (env.claimedLogs tokenAddr (pd.blockNumber + 1)) : Int))).toNat := by
  refine ⟨rfl, fun pd => ?_⟩
  unfold calculateDistributableAmount getClaimedAmountSinceLastReport
  set nda : Int := (env.distributorBalance tokenAddr : Int) -
    ((env.distributorBalanceAt tokenAddr pd.blockNumber : Int) -
      (sumClaimed (env.claimedLogs tokenAddr (pd.blockNumber + 1)) : Int)) with hnda
  by_cases h : 0 < nda
  · simp [h]
  · simp only [h, if_false]
    omega

/-- The per-user allocation a candidate receives, as the specification words
it: skip on zero balance, `share = bal * 1e18 / totalSupply`,
`alloc = actual * share / 1e18`, and a row (with the cumulative amount) only
when the allocation is positive. -/
def emitRow (env : Env) (prev : Option Distribution) (tokenAddr : String)
    (actual : Nat) (user : String) : Option Claim :=
  if env.balanceOf user = 0 then none
  else
    let share := env.balanceOf user * precision / env.totalSupply
    let alloc := actual * share / precision
    if 0 < alloc then
      some { recipient := user, token := tokenAddr,
             amount := prevAmountOf prev user tokenAddr + alloc }
    else none

theorem foldl_allocStep (env : Env) (prev : Option Distribution) (tokenAddr : String)
    (actual : Nat) :
    ∀ (users : List String) (acc : List Claim × Nat),
      (users.foldl (allocStep env prev tokenAddr actual) acc).1 =
        acc.1 ++ users.filterMap (emitRow env prev tokenAddr actual) := by
  intro users
  induction users with
  | nil => intro acc; simp
  | cons u us ih =>
    intro acc
    rw [List.foldl_cons, ih, List.filterMap_cons]
    by_cases hb : env.balanceOf u = 0
    · simp [allocStep, emitRow, hb]
    · by_cases ha : 0 < actual * (env.balanceOf u * precision / env.totalSupply) / precision
      · simp [allocStep, emitRow, hb, ha, List.append_assoc]
      · simp [allocStep, emitRow, hb, ha]

/-- C3: for a token with positive distributable amount `D` and positive total
supply, the fee skim is `D * operatorFeeBps / 10000` in truncating integer
division (`operatorFeeBps` being `Math.floor(operatorFee * 100)`), the
remainder `actual = D - fee` is apportioned per candidate as
`actual * (bal * 1e18 / totalSupply) / 1e18`, zero-balance candidates are
skipped, and a row is emitted exactly when the allocation is positive. -/
theorem processToken_apportionment (env : Env) (prev : Option Distribution)
    (users : List String) (tokenAddr : String)
    (hS : 0 < env.totalSupply)
    (hD : 0 < calculateDistributableAmount env tokenAddr prev) :
    (processToken env prev users tokenAddr).1 =
      users.filterMap (emitRow env prev tokenAddr
        (calculateDistributableAmount env tokenAddr prev -
          calculateDistributableAmount env tokenAddr prev * env.operatorFeeBps / 10000)) := by
  unfold processToken
  rw [if_neg (Nat.pos_iff_ne_zero.mp hD)]
  rw [foldl_allocStep]
  rfl

/-- Witness for C3 on the concrete second-round environment and token `0xt2`. -/
theorem processToken_apportionment_witness :
    0 < envRound2.totalSupply ∧
    0 < calculateDistributableAmount envRound2 "0xt2" (some pdPrev) ∧
    (processToken envRound2 (some pdPrev) ["0xu1", "0xv1"] "0xt2").1 =
      ["0xu1", "0xv1"].filterMap (emitRow envRound2 (some pdPrev) "0xt2"
        (calculateDistributableAmount envRound2 "0xt2" (some pdPrev) -
          calculateDistributableAmount envRound2 "0xt2" (some pdPrev) *
            envRound2.operatorFeeBps / 10000)) :=
  ⟨by decide, by decide,
    processToken_apportionment envRound2 (some pdPrev) ["0xu1", "0xv1"] "0xt2"
      (by decide) (by decide)⟩

/-- C1 fails on the code: the pair `(0xu1, 0xt1)` is present in the previous
blob with cumulative 5, the run succeeds, and the produced blob has no row at
all for that pair (token `0xt1` has zero distributable this round and `0xu1`
has zero wrapper balance, so the prior cumulative is dropped instead of being
carried forward). -/
theorem generateDistribution_drops_prev_pair :
    pdPrev.values = [⟨0, "0xu1", "0xt1", 5⟩] ∧
    loadPrevious envRound2 = .ok ("QmP", some pdPrev) ∧
    generateDistribution envRound2 = .ok (blobRound2, "rootX", "cidX") ∧
    blobRound2.values = [⟨0, "0xv1", "0xt2", 10⟩] :=
  ⟨rfl, rfl, rfl, rfl⟩

/-- C5 fails on the code: in the blob produced on `envRound2`,
`totalDistributed` maps token `0xt1` to 5 (carried over from the previous
round) while the sum of the cumulative amounts over the rows of `values` with
that token is 0, because the rows of prior recipients with no new allocation
are dropped. -/
theorem totalDistributed_mismatch :
    generateDistribution envRound2 = .ok (blobRound2, "rootX", "cidX") ∧
    lookupTotal blobRound2.totalDistributed "0xt1" = 5 ∧
    ((blobRound2.values.filter (fun row => row.token == "0xt1")).map
      (fun row => row.amount)).sum = 0 ∧
    lookupTotal blobRound2.totalDistributed "0xt1" ≠
      ((blobRound2.values.filter (fun row => row.token == "0xt1")).map
        (fun row => row.amount)).sum :=
  ⟨rfl, rfl, rfl, by decide⟩

/-- C6 fails as stated: here the on-chain cid is non-empty but the root is the
zero hash, the previous blob is downloadable and its rebuilt root (`rootX`)
differs from the stored root, yet `generateDistribution` raises no error: it
ignores the previous blob and proceeds as a genesis round. -/
theorem nonEmptyCid_zeroRoot_skips_validation :
    envZeroRoot.cidRoot = .ok ("QmZ", zeroHash) ∧
    "QmZ" ≠ "" ∧
    envZeroRoot.download "QmZ" = .ok pdPrev ∧
    envZeroRoot.mroot (claimsOfDist pdPrev) ≠ zeroHash ∧
    generateDistribution envZeroRoot = .ok (blobZeroRoot, "rootX", "cidZ") ∧
    blobZeroRoot.prevTreeCid = "" :=
  ⟨rfl, by decide, rfl, by decide, rfl, rfl⟩

/-- C6 amended: when the root and cid reads succeed, the cid is non-empty,
the root is not the zero hash, and the blob downloads, the rebuilt root is
compared with the on-chain root and the run aborts exactly when validation
fails (rebuilt root differing, or the rebuild itself failing on an empty
value list). -/
theorem previousValidation_spec (env : Env) (cid merkleRoot : String)
    (pd : Distribution)
    (hcr : env.cidRoot = .ok (cid, merkleRoot)) (hc : cid ≠ "")
    (hr : merkleRoot ≠ zeroHash)
    (hd : env.download cid = .ok pd) :
    (validatePreviousDistribution env pd merkleRoot = true ↔
      (claimsOfDist pd ≠ [] ∧ env.mroot (claimsOfDist pd) = merkleRoot)) ∧
    (validatePreviousDistribution env pd merkleRoot = false →
      generateDistribution env = .error "Previous distribution validation failed") ∧
    (validatePreviousDistribution env pd merkleRoot = true →
      generateDistribution env = generateWithPrev env cid (some pd)) := by
  refine ⟨?_, ?_, ?_⟩
  · unfold validatePreviousDistribution generateMerkleTree
    by_cases he : claimsOfDist pd = []
    · simp [he]
    · simp [he, List.isEmpty_iff, beq_iff_eq]
  · intro hv
    simp [generateDistribution, loadPrevious, getPreviousDistributionInfo,
      hcr, hc, hr, hd, hv]
  · intro hv
    simp [generateDistribution, loadPrevious, getPreviousDistributionInfo,
      hcr, hc, hr, hd, hv]

/-- Witness for the amended C6 on the concrete second-round environment,
where validation passes. -/
theorem previousValidation_spec_witness :
    validatePreviousDistribution envRound2 pdPrev "root1" = true ∧
    generateDistribution envRound2 = generateWithPrev envRound2 "QmP" (some pdPrev) :=
  ⟨by decide,
    (previousValidation_spec envRound2 "QmP" "root1" pdPrev rfl (by decide)
      (by decide) rfl).2.2 (by decide)⟩

/-- C7 fails as stated: on an environment whose root/cid read fails, the
failure is not propagated; the run succeeds and behaves as a genesis round. -/
theorem rpcFailure_treated_as_genesis :
    envRpcFail.cidRoot = .error "connection refused" ∧
    generateDistribution envRpcFail = .ok (blobZeroRoot, "rootX", "cidZ") :=
  ⟨rfl, rfl⟩

/-- C7 amended: a failure reading the on-chain root and cid is caught and the
round proceeds as genesis, an unparseable Claimed log is skipped by the claim
sum, and an unparseable Deposit log is skipped by the owner scan; blob
download and validation failures do propagate (see `previousValidation_spec`). -/
theorem localRecovery_spec (env : Env) :
    (∀ e, env.cidRoot = .error e →
      generateDistribution env = generateWithPrev env "" none) ∧
    (∀ (pre post : List (Except String Nat)) (e : String),
      sumClaimed (pre ++ .error e :: post) = sumClaimed (pre ++ post)) ∧
    (∀ (pre post : List (Except String String)) (e : String),
      okOwners (pre ++ .error e :: post) = okOwners (pre ++ post)) := by
  refine ⟨?_, ?_, ?_⟩
  · intro e he
    simp [generateDistribution, loadPrevious, getPreviousDistributionInfo, he]
  · intro pre post e
    unfold sumClaimed
    rw [List.foldl_append, List.foldl_append, List.foldl_cons]
  · intro pre post e
    simp [okOwners, List.filterMap_append, List.filterMap_cons]

/-- Witness for the amended C7: the genesis fallback on the concrete failing
environment and the skipping of an unparseable Claimed log. -/
theorem localRecovery_spec_witness :
    generateDistribution envRpcFail = generateWithPrev envRpcFail "" none ∧
    sumClaimed ([.ok 3] ++ .error "bad" :: [.ok 4]) =
      sumClaimed ([.ok 3] ++ [.ok 4]) :=
  ⟨(localRecovery_spec envRpcFail).1 "connection refused" rfl,
    (localRecovery_spec envRpcFail).2.1 [.ok 3] [.ok 4] "bad"⟩

theorem mem_insertOnce (l : List String) (x a : String) :
    a ∈ insertOnce l x ↔ a ∈ l ∨ a = x := by
  unfold insertOnce
  by_cases hx : x ∈ l
  · rw [if_pos hx]
    constructor
    · exact Or.inl
    · rintro (h | rfl)
      · exact h
      · exact hx
  · rw [if_neg hx]
    simp [List.mem_append]

theorem mem_foldl_insertOnce (l : List String) :
    ∀ (acc : List String) (a : String),
      a ∈ l.foldl insertOnce acc ↔ a ∈ acc ∨ a ∈ l := by
  induction l with
  | nil => intro acc a; simp
  | cons x xs ih =>
    intro acc a
    rw [List.foldl_cons, ih, mem_insertOnce, List.mem_cons]
    tauto

theorem nodup_foldl_insertOnce (l : List String) :
    ∀ acc : List String, acc.Nodup → (l.foldl insertOnce acc).Nodup := by
  induction l with
  | nil => intro acc h; simpa
  | cons x xs ih =>
    intro acc h
    rw [List.foldl_cons]
    apply ih
    unfold insertOnce
    by_cases hx : x ∈ acc
    · simpa [hx]
    · rw [if_neg hx, List.nodup_append]
      refine ⟨h, List.nodup_singleton x, ?_⟩
      intro a ha hax
      rw [List.mem_singleton] at hax
      exact hx (hax ▸ ha)

theorem mem_setOfList (l : List String) (a : String) : a ∈ setOfList l ↔ a ∈ l := by
  unfold setOfList
  rw [mem_foldl_insertOnce]
  simp

theorem nodup_setOfList (l : List String) : (setOfList l).Nodup :=
  nodup_foldl_insertOnce l [] List.nodup_nil

/-- C8 amended: as a set, the candidate list is the previous-blob recipients
together with the parseable Deposit owners of the scanned range, the zero
address being removed from the deposit-derived owners only (a zero address in
the previous blob survives); the list is duplicate-free and kept in first
insertion order, not sorted by address. -/
theorem candidateUsers_spec (env : Env) (prev : Option Distribution) (a : String) :
    (a ∈ candidateUsers env prev ↔
      a ∈ prevRecipients prev ∨
        (a ∈ okOwners (env.depositLogs env.lastProcessedBlock env.currentBlock) ∧
          a ≠ zeroAddress)) ∧
    (candidateUsers env prev).Nodup := by
  constructor
  · unfold candidateUsers getWrapperUsers
    rw [mem_setOfList, List.mem_append, List.mem_filter, mem_setOfList]
    simp [bne_iff_ne]
  · exact nodup_setOfList _

/-- C8 fails as stated: on a previous blob whose recipients are unsorted and
include the zero address, the candidate list keeps blob order and keeps the
zero address, so it is neither ordered by address nor purged of the zero
address. -/
theorem candidateUsers_unordered_keeps_zero :
    envOrder.download "QmO" = .ok pdOrder ∧
    candidateUsers envOrder (some pdOrder) = ["0xb1", zeroAddress, "0xa1"] ∧
    zeroAddress ∈ candidateUsers envOrder (some pdOrder) ∧
    ¬ List.Pairwise (fun x y : String => compare (strLower x) (strLower y) ≠ .gt)
      (candidateUsers envOrder (some pdOrder)) :=
  ⟨rfl, rfl, by decide, by decide⟩

/-- C9: proof generation by index returns `none` exactly when the index is
negative or at least the length of `values`; proof generation by recipient
returns `none` exactly when no row matches the requested address
case-insensitively; on success each returns the proof of the matched
position together with the matched leaf value. -/
theorem proofLookup_spec (getProof : Nat → List String) (d : Distribution)
    (index : Int) (recipient : String) :
    (generateProofByIndex getProof d index = none ↔
      index < 0 ∨ (d.values.length : Int) ≤ index) ∧
    (generateProofForRecipient getProof d recipient = none ↔
      ∀ row ∈ d.values, strLower row.recipient ≠ strLower recipient) ∧
    (∀ res, generateProofByIndex getProof d index = some res →
      res.proof = getProof index.toNat ∧ res.value = rowValueAt d index.toNat ∧
        res.treeIndex = rowTreeIndexAt d index.toNat) ∧
    (∀ res, generateProofForRecipient getProof d recipient = some res →
      ∃ h : res.treeIndex < d.values.length,
        strLower (d.values.get ⟨res.treeIndex, h⟩).recipient = strLower recipient ∧
        res.proof = getProof res.treeIndex ∧ res.value = rowValueAt d res.treeIndex) := by
  refine ⟨?_, ?_, ?_, ?_⟩
  · unfold generateProofByIndex
    by_cases h : index < 0 ∨ (d.values.length : Int) ≤ index <;> simp [h]
  · unfold generateProofForRecipient
    rcases hF : d.values.findIdx?
        (fun row => strLower row.recipient == strLower recipient) with _ | i
    · simp only [hF, true_iff]
      intro row hrow
      have := List.findIdx?_eq_none_iff.mp hF row hrow
      simpa [beq_iff_eq] using this
    · simp only [hF]
      obtain ⟨hlen, hp, -⟩ := List.findIdx?_eq_some_iff_getElem.mp hF
      simp only [reduceCtorEq, false_iff, not_forall]
      refine ⟨d.values[i], List.getElem_mem hlen, ?_⟩
      rw [beq_iff_eq] at hp
      simp [hp]
  · intro res hres
    by_cases h : index < 0 ∨ (d.values.length : Int) ≤ index
    · rw [generateProofByIndex, if_pos h] at hres
      exact absurd hres (by simp)
    · rw [generateProofByIndex, if_neg h] at hres
      rw [← (Option.some.injEq _ _).mp hres]
      exact ⟨rfl, rfl, rfl⟩
  · intro res hres
    unfold generateProofForRecipient at hres
    rcases hF : d.values.findIdx?
        (fun row => strLower row.recipient == strLower recipient) with _ | i
    · rw [hF] at hres
      exact absurd hres (by simp)
    · rw [hF] at hres
      rw [← (Option.some.injEq _ _).mp hres]
      obtain ⟨hlen, hp, -⟩ := List.findIdx?_eq_some_iff_getElem.mp hF
      refine ⟨hlen, ?_, rfl, rfl⟩
      rw [List.get_eq_getElem]
      exact beq_iff_eq.mp hp

/-- Witness for C9: lookup by index 0 and by a differently-cased recipient on
a concrete one-row blob. -/
theorem proofLookup_spec_witness :
    generateProofByIndex (fun _ => ["h1"]) dNine 0 =
      some ⟨["h1"], ("0xA1", "0xt1", 5), 7⟩ ∧
    (⟨["h1"], ("0xA1", "0xt1", 5), 7⟩ : ProofResult).value =
      rowValueAt dNine (0 : Int).toNat :=
  ⟨rfl,
    ((proofLookup_spec (fun _ => ["h1"]) dNine 0 "0XA1").2.2.1
      ⟨["h1"], ("0xA1", "0xt1", 5), 7⟩ rfl).2.1⟩

/-- C10: `verifyProof` is independent of its `root` argument, because it
verifies the proof against a freshly built single-leaf tree of the value
rather than against the supplied root. -/
theorem verifyProof_ignores_root {T : Type}
    (treeOfValues : List (String × String × Nat) → T)
    (treeVerify : T → (String × String × Nat) → List String → Bool)
    (value : String × String × Nat) (proof : List String) (r1 r2 : String) :
    verifyProof treeOfValues treeVerify value proof r1 =
      verifyProof treeOfValues treeVerify value proof r2 := rfl
